import Mathlib

/-
Verification development for the pytorch-colorful-colorization repository.

Embedded components:
* `colorization/data/image_file_or_directory.py` — the `ImageFileOrDirectory`
  dataset (construction, indexing, length, image-loading pipeline).
* `run_evaluation.py` — the command-line argument validation block.
* The quantized color encode/decode subsystem (gamut table, soft encoder,
  annealed decoder), whose Python sources are not part of the sources at
  hand; those parts are modelled from the specification, as marked.

External capabilities (the filesystem, `skimage` image reading and color
conversion, the float32 cast) are abstracted as uninterpreted function parameters
collected in an environment structure; everything the repository itself
computes is embedded concretely.
-/

namespace Colorization

/-! ## ImageFileOrDirectory (src/colorization/data/image_file_or_directory.py) -/

/-- An image array is a nested list: in reading order height x width x
channels (as returned by `io.imread` / `color.rgb2lab`), after the axis move
channels x height x width.  Entries are modelled as rationals. -/
def Image : Type := List (List (List ℚ))

/-- The external environment of the dataset: filesystem queries
(`os.path.exists`, `os.path.isdir`, `os.listdir`), image reading
(`io.imread`), color conversion (`color.rgb2lab`) and the elementwise
float32 cast (`astype`), all uninterpreted to the embedded code. -/
structure Env where
  pathExists : String → Bool
  isDir : String → Bool
  listDir : String → List String
  imread : String → Image
  rgb2lab : Image → Image
  f32 : ℚ → ℚ

/-- `os.path.join(root, name)` for a plain file name. -/
def joinPath (root name : String) : String :=
  root ++ "/" ++ name

/-- Python `sorted` on a list of strings: ascending lexicographic order. -/
def sortedStrings (l : List String) : List String :=
  l.insertionSort (fun a b => a ≤ b)

/-- The two dataset modes (`MODE_FILE` / `MODE_DIR`). -/
inductive DatasetMode
  | file
  | dir
deriving DecidableEq

/-- State of a constructed `ImageFileOrDirectory` dataset.  In file mode
`root` and `files` are unused (empty); in directory mode `file` is unused. -/
structure ImageFileOrDirectory where
  mode : DatasetMode
  root : String
  files : List String
  file : String

/-- `ImageFileOrDirectory.__init__`: raise `ValueError` if the path does not
exist; directory mode (with the directory listing sorted once) if it is a
directory, single-file mode otherwise. -/
def ImageFileOrDirectory.init (env : Env) (file_or_root : String) :
    Except String ImageFileOrDirectory :=
  if env.pathExists file_or_root = false then
    .error (file_or_root ++ " does not exist")
  else if env.isDir file_or_root then
    .ok ⟨.dir, file_or_root, sortedStrings (env.listDir file_or_root), ""⟩
  else
    .ok ⟨.file, "", [], file_or_root⟩

/-- `np.moveaxis(img, -1, 0)`: move the trailing channel axis of a
height x width x channels array to the front. -/
def moveaxisLast0 (img : List (List (List ℚ))) : List (List (List ℚ)) :=
  let nc := ((img.headD []).headD []).length
  (List.range nc).map (fun c => img.map (fun row => row.map (fun px => px.getD c 0)))

/-- `img.astype(np.float32)`: the elementwise cast, elementwise application
of the uninterpreted cast function. -/
def mapImage (f : ℚ → ℚ) (img : List (List (List ℚ))) : List (List (List ℚ)) :=
  img.map (fun rows => rows.map (fun px => px.map f))

/-- `ImageFileOrDirectory._load_image`: read the file as RGB, convert to
Lab, move the channel axis to the front, cast to float32. -/
def ImageFileOrDirectory.load_image (env : Env) (path : String) :
    List (List (List ℚ)) :=
  mapImage env.f32 (moveaxisLast0 (env.rgb2lab (env.imread path)))

/-- `ImageFileOrDirectory.__getitem__`: directory mode returns the loaded
image of the index-th sorted file together with its joined path, file mode
always returns the single file; an out-of-range directory index is `none`
(Python `IndexError`). -/
def ImageFileOrDirectory.getitem (env : Env) (d : ImageFileOrDirectory)
    (index : ℕ) : Option ((List (List (List ℚ))) × String) :=
  match d.mode with
  | .dir =>
    match d.files.get? index with
    | some name =>
      some (ImageFileOrDirectory.load_image env (joinPath d.root name),
            joinPath d.root name)
    | none => none
  | .file => some (ImageFileOrDirectory.load_image env d.file, d.file)

/-- `ImageFileOrDirectory.__len__`. -/
def ImageFileOrDirectory.len (d : ImageFileOrDirectory) : ℕ :=
  match d.mode with
  | .dir => d.files.length
  | .file => 1

/-- A small concrete environment used to instantiate the theorems: a
directory `d` containing the files `b.png` and `a.png` (listed by the
operating system in that order), every image reading to a constant 1 x 2 x 3
RGB array, color conversion and the float32 cast taken as the identity. -/
def demoEnv : Env :=
  ⟨fun p => p == "d" || p == "d/a.png" || p == "d/b.png",
   fun p => p == "d",
   fun p => if p == "d" then ["b.png", "a.png"] else [],
   fun _ => [[[1, 2, 3], [4, 5, 6]]],
   fun img => img,
   id⟩

/-- The same environment with the operating system enumerating the
directory in the opposite order. -/
def demoEnv2 : Env :=
  ⟨fun p => p == "d" || p == "d/a.png" || p == "d/b.png",
   fun p => p == "d",
   fun p => if p == "d" then ["a.png", "b.png"] else [],
   fun _ => [[[1, 2, 3], [4, 5, 6]]],
   fun img => img,
   id⟩

/-! ## run_evaluation.py: command-line argument validation (lines 122-142) -/

/-- A Python attribute value as relevant to the validation block: `None` or
a (string) value. -/
inductive PyVal
  | none
  | str (s : String)
deriving DecidableEq

/-- The Python exceptions the validation block can raise: `ValueError`
(from `_err`) and `AttributeError` (from accessing an undefined attribute
of the argparse namespace). -/
inductive PyErr
  | valueError (msg : String)
  | attributeError (name : String)
deriving DecidableEq

/-- `x is None`. -/
def PyVal.isNone : PyVal → Bool
  | .none => true
  | .str _ => false

/-- An argparse namespace: the defined attribute names with their values. -/
structure PyNamespace where
  attrs : List (String × PyVal)

/-- Python attribute access on a namespace: `AttributeError` when the
attribute is not defined. -/
def PyNamespace.getattr (ns : PyNamespace) (name : String) :
    Except PyErr PyVal :=
  match ns.attrs.lookup name with
  | some v => .ok v
  | Option.none => .error (.attributeError name)

/-- Python short-circuit `and` whose right operand is an attribute access:
when the left operand is false the right operand is never evaluated, so an
error it would raise is not raised. -/
def pyAnd (a : Bool) (b : Except PyErr Bool) : Except PyErr Bool :=
  if a then b else .ok false

/-- The namespace produced by the argument parser of `run_evaluation.py`:
exactly these attributes are defined.  Note that `--checkpoint-dir` defines
the attribute `checkpoint_dir`; no attribute named `checkoint_dir` exists. -/
def buildArgs (config input_image input_dir output_image output_dir
    input_size pretrain_proto pretrain_model checkpoint checkpoint_dir
    verbose : PyVal) : PyNamespace :=
  ⟨[("config", config), ("input_image", input_image),
    ("input_dir", input_dir), ("output_image", output_image),
    ("output_dir", output_dir), ("input_size", input_size),
    ("pretrain_proto", pretrain_proto), ("pretrain_model", pretrain_model),
    ("checkpoint", checkpoint), ("checkpoint_dir", checkpoint_dir),
    ("verbose", verbose)]⟩

/-- The argument validation block of `run_evaluation.py` (lines 122-142),
executed before any configuration or model loading.  Attribute accesses and
short-circuit evaluation are modelled exactly; in particular line 133 of
the source accesses the misspelled attribute `checkoint_dir`. -/
def validateArgs (args : PyNamespace) : Except PyErr Unit :=
  match args.getattr "input_image", args.getattr "input_dir" with
  | .error e, _ => .error e
  | _, .error e => .error e
  | .ok input_image, .ok input_dir =>
  if input_image.isNone == input_dir.isNone then
    .error (.valueError "either --input-image OR --input-dir must be specified")
  else
  match pyAnd (!input_image.isNone)
      ((args.getattr "output_image").map PyVal.isNone) with
  | .error e => .error e
  | .ok true =>
    .error (.valueError "--input-image and --output-image must be specified together")
  | .ok false =>
  match pyAnd (!input_dir.isNone)
      ((args.getattr "output_dir").map PyVal.isNone) with
  | .error e => .error e
  | .ok true =>
    .error (.valueError "--input-dir and --output-dir must be specified together")
  | .ok false =>
  match args.getattr "pretrain_proto", args.getattr "pretrain_model" with
  | .error e, _ => .error e
  | _, .error e => .error e
  | .ok pretrain_proto, .ok pretrain_model =>
  if pretrain_proto.isNone != pretrain_model.isNone then
    .error (.valueError "--pretrain-proto and --pretrain-model must be specified together")
  else
  match args.getattr "checkpoint" with
  | .error e => .error e
  | .ok checkpoint =>
  match pyAnd (!checkpoint.isNone)
      ((args.getattr "checkoint_dir").map (fun v => !v.isNone)) with
  | .error e => .error e
  | .ok true =>
    .error (.valueError "--checkpoint and --checkpoint-dir may not be specified together")
  | .ok false =>
  match args.getattr "checkpoint_dir" with
  | .error e => .error e
  | .ok checkpoint_dir =>
  if (!pretrain_proto.isNone) ==
      (!checkpoint.isNone || !checkpoint_dir.isNone) then
    .error (.valueError "either pretrained network OR checkpoint must be specified")
  else .ok ()

/-! ## Quantized color encode/decode subsystem

The Python modules `colorization/cielab.py`,
`colorization/modules/soft_encode_ab.py` and
`colorization/modules/annealed_mean_decode_q.py` are not among the sources
at hand (only their test `colorization/test/test_modules.py` is); the
definitions below are modelled from the specification, as marked. -/

/-- Modelled from the spec: the Gamut Table of `colorization/cielab.py`
(missing from the sources) — the ordered, index-stable collection of valid
quantized chrominance bins; index i (0..N-1) carries the (a, b) grid center
of bin i. -/
structure GamutTable where
  centers : List (ℚ × ℚ)

/-- `size() -> N`. -/
def GamutTable.size (tbl : GamutTable) : ℕ := tbl.centers.length

/-- Squared Euclidean distance in the (a, b) chrominance plane.  Ordering
bins by Euclidean distance is the same as ordering by squared distance,
and the Gaussian kernel consumes the squared distance directly. -/
def sqDist (s c : ℚ × ℚ) : ℚ := (s.1 - c.1)^2 + (s.2 - c.2)^2

/-- Ranking of (squared distance, bin index) pairs: ascending distance,
ties broken by ascending index. -/
def rankLe (x y : ℚ × ℕ) : Prop :=
  x.1 < y.1 ∨ (x.1 = y.1 ∧ x.2 ≤ y.2)

instance rankLe.decRel : DecidableRel rankLe := fun x y => by
  unfold rankLe
  infer_instance

/-- Modelled from the spec: `nearestK(sample, k)` of the Gamut Table
(missing from the sources) — the (squared distance, index) pairs of the k
bins closest to the sample under Euclidean distance, ties broken by
ascending index; exact, and for k > N simply all N entries in order. -/
def GamutTable.nearestK (tbl : GamutTable) (s : ℚ × ℚ) (k : ℕ) :
    List (ℚ × ℕ) :=
  (((List.range tbl.size).map
      (fun i => (sqDist s (tbl.centers.getD i (0, 0)), i))).insertionSort
    rankLe).take k

/-- Gaussian kernel weight of a squared distance d2 = d^2 with standard
deviation sigma: exp(-d^2 / (2 sigma^2)). -/
noncomputable def gaussWeight (sigma d2 : ℚ) : ℝ :=
  Real.exp (-(d2 : ℝ) / (2 * (sigma : ℝ)^2))

/-- The indices of the k nearest bins selected by the soft encoder. -/
def SoftEncodeAB.selected (tbl : GamutTable) (k : ℕ) (s : ℚ × ℚ) :
    List ℕ :=
  (tbl.nearestK s k).map Prod.snd

/-- The unnormalized Gaussian weight the soft encoder attaches to bin i:
the kernel of the distance from the sample to the center of bin i. -/
noncomputable def SoftEncodeAB.weight (tbl : GamutTable) (sigma : ℚ)
    (s : ℚ × ℚ) (i : ℕ) : ℝ :=
  gaussWeight sigma (sqDist s (tbl.centers.getD i (0, 0)))

/-- The total unnormalized weight of the selected bins (the normalizer). -/
noncomputable def SoftEncodeAB.totalWeight (tbl : GamutTable) (k : ℕ)
    (sigma : ℚ) (s : ℚ × ℚ) : ℝ :=
  ((SoftEncodeAB.selected tbl k s).map (SoftEncodeAB.weight tbl sigma s)).sum

/-- Modelled from the spec: `SoftEncodeAB` of
`colorization/modules/soft_encode_ab.py` (missing from the sources) —
locate the k nearest bins to the sample, weight each by the Gaussian
kernel of its distance, normalize those k weights to sum to 1, and assign
0 to every non-selected bin. -/
noncomputable def SoftEncodeAB.encode (tbl : GamutTable) (k : ℕ)
    (sigma : ℚ) (s : ℚ × ℚ) : List ℝ :=
  (List.range tbl.size).map (fun i =>
    if i ∈ SoftEncodeAB.selected tbl k s then
      SoftEncodeAB.weight tbl sigma s i /
        SoftEncodeAB.totalWeight tbl k sigma s
    else 0)

/-- Softmax normalization of raw per-bin scores (step 1 of the annealed
decoder): p i = exp(s i) / sum of exponentials.  The max-subtraction
stabilization of the implementation cancels exactly in this quotient. -/
noncomputable def softmaxP (scores : List ℚ) (i : ℕ) : ℝ :=
  Real.exp ((scores.getD i 0 : ℚ) : ℝ) /
    ((scores.map (fun v => Real.exp ((v : ℚ) : ℝ))).sum)

/-- First index attaining the maximum of a list (argmax with ties broken
by lowest index); 0 for the empty list. -/
def argmaxIdx : List ℚ → ℕ
  | [] => 0
  | [_] => 0
  | x :: y :: ys =>
    if (y :: ys).getD (argmaxIdx (y :: ys)) 0 ≤ x then 0
    else argmaxIdx (y :: ys) + 1

/-- The length-n one-hot vector at index j. -/
def oneHot (n j : ℕ) : List ℚ :=
  (List.range n).map (fun i => if i = j then 1 else 0)

/-- Modelled from the spec: the annealed decoder `AnnealedMeanDecodeQ` of
`colorization/modules/annealed_mean_decode_q.py` (missing from the
sources), holding its configured temperature. -/
structure AnnealedMeanDecodeQ where
  T : ℚ

/-- Modelled from the spec: construction of the annealed decoder — a
negative temperature is rejected with a descriptive failure and never
silently clamped; any non-negative temperature (including 0 exactly) is
stored unchanged. -/
def AnnealedMeanDecodeQ.init (T : ℚ) : Except String AnnealedMeanDecodeQ :=
  if T < 0 then .error "temperature must be non-negative"
  else .ok ⟨T⟩

/-- Modelled from the spec: the T = 0 special case of the annealed decoder
— bypass the power reweighting and give weight 1 to the single bin of
maximum normalized probability (ties broken by lowest index) and 0 to all
others.  Because softmax is strictly monotone, that bin is the argmax of
the raw scores; the equality with the softmax argmax is proved below. -/
def decodeT0 (scores : List ℚ) : List ℚ :=
  oneHot scores.length (argmaxIdx scores)

/-! ### Theorems about the dataset -/

/-- C9: construction raises `ValueError` exactly when the path does not
exist; when it exists, the dataset is in directory mode exactly when the
path is a directory, and otherwise in single-file mode with length 1. -/
theorem init_mode_spec (env : Env) (p : String) :
    ((∃ e, ImageFileOrDirectory.init env p = .error e) ↔
      env.pathExists p = false) ∧
    (∀ d, ImageFileOrDirectory.init env p = .ok d →
      (d.mode = .dir ↔ env.isDir p = true) ∧
      (env.isDir p = false → d.mode = .file ∧ d.len = 1)) := by
  constructor
  · constructor
    · rintro ⟨e, he⟩
      by_contra hne
      simp only [ImageFileOrDirectory.init, hne, if_false] at he
      by_cases hd : env.isDir p <;> simp [hd] at he
    · intro h
      exact ⟨p ++ " does not exist", by simp [ImageFileOrDirectory.init, h]⟩
  · intro d hd
    unfold ImageFileOrDirectory.init at hd
    by_cases hex : env.pathExists p = false
    · rw [if_pos hex] at hd
      cases hd
    · rw [if_neg hex] at hd
      by_cases hdir : env.isDir p
      · rw [if_pos hdir] at hd
        cases hd
        simp [hdir]
      · rw [if_neg hdir] at hd
        cases hd
        simp only [Bool.not_eq_true] at hdir
        refine ⟨by simp [hdir], fun _ => ⟨rfl, rfl⟩⟩

/-- C9 witness: on a concrete environment, a missing path is rejected and
an existing directory lands in directory mode. -/
theorem init_mode_spec_witness :
    ((∃ e, ImageFileOrDirectory.init
        ⟨fun p => p == "d", fun p => p == "d", fun _ => [], fun _ => [],
         id, id⟩ "missing" = .error e) ↔
      (false : Bool) = false) :=
  (init_mode_spec
    ⟨fun p => p == "d", fun p => p == "d", fun _ => [], fun _ => [], id, id⟩
    "missing").1

/-- C6: `__len__` is the number of listed directory entries in directory
mode and exactly 1 in single-file mode. -/
theorem len_spec (env : Env) (p : String) (d : ImageFileOrDirectory)
    (h : ImageFileOrDirectory.init env p = .ok d) :
    (env.isDir p = true → d.len = (env.listDir p).length) ∧
    (env.isDir p = false → d.len = 1) := by
  unfold ImageFileOrDirectory.init at h
  by_cases hex : env.pathExists p = false
  · rw [if_pos hex] at h
    cases h
  · rw [if_neg hex] at h
    by_cases hdir : env.isDir p
    · rw [if_pos hdir] at h
      cases h
      constructor
      · intro _
        simp [ImageFileOrDirectory.len, sortedStrings]
      · intro hc
        rw [hdir] at hc
        cases hc
    · rw [if_neg hdir] at h
      cases h
      exact ⟨fun hc => by simp [hc] at hdir, fun _ => rfl⟩

/-- C4: for a successfully constructed dataset and a valid index,
`__getitem__` returns a pair of the image at some path and that path, the
image being the file read as RGB, converted to Lab, channel axis moved to
the front, cast to float32; in directory mode the path joins the root with
the index-th sorted file name, in file mode it is the constructor path. -/
theorem getitem_spec (env : Env) (p : String) (d : ImageFileOrDirectory)
    (h : ImageFileOrDirectory.init env p = .ok d) (i : ℕ) (hi : i < d.len) :
    ∃ path,
      d.getitem env i =
        some (mapImage env.f32 (moveaxisLast0 (env.rgb2lab (env.imread path))),
              path) ∧
      (d.mode = .dir →
        ∃ name, (sortedStrings (env.listDir p)).get? i = some name ∧
          path = joinPath p name) ∧
      (d.mode = .file → path = p) := by
  unfold ImageFileOrDirectory.init at h
  by_cases hex : env.pathExists p = false
  · rw [if_pos hex] at h
    cases h
  · rw [if_neg hex] at h
    by_cases hdir : env.isDir p
    · rw [if_pos hdir] at h
      cases h
      simp only [ImageFileOrDirectory.len] at hi
      obtain ⟨name, hname⟩ :
          ∃ name, (sortedStrings (env.listDir p)).get? i = some name :=
        ⟨_, List.get?_eq_get hi⟩
      refine ⟨joinPath p name, ?_, fun _ => ⟨name, hname, rfl⟩, by intro hc; cases hc⟩
      rw [List.get?_eq_getElem?] at hname
      simp [ImageFileOrDirectory.getitem, hname, ImageFileOrDirectory.load_image]
    · rw [if_neg hdir] at h
      cases h
      refine ⟨p, rfl, ?_, fun _ => rfl⟩
      intro hc
      cases hc

/-- C4 witness: index 0 of the concrete directory dataset. -/
theorem getitem_spec_witness :
    ∃ path,
      ImageFileOrDirectory.getitem demoEnv
        ⟨.dir, "d", sortedStrings (demoEnv.listDir "d"), ""⟩ 0 =
        some (mapImage demoEnv.f32
                (moveaxisLast0 (demoEnv.rgb2lab (demoEnv.imread path))),
              path) ∧
      ((⟨.dir, "d", sortedStrings (demoEnv.listDir "d"), ""⟩ :
          ImageFileOrDirectory).mode = .dir →
        ∃ name, (sortedStrings (demoEnv.listDir "d")).get? 0 = some name ∧
          path = joinPath "d" name) ∧
      ((⟨.dir, "d", sortedStrings (demoEnv.listDir "d"), ""⟩ :
          ImageFileOrDirectory).mode = .file → path = "d") :=
  getitem_spec demoEnv "d" ⟨.dir, "d", sortedStrings (demoEnv.listDir "d"), ""⟩
    rfl 0 (by
      simp only [ImageFileOrDirectory.len, sortedStrings,
        List.length_insertionSort]
      decide)

/-- C6 witness: the concrete directory dataset has the length of its
directory listing. -/
theorem len_spec_witness :
    (demoEnv.isDir "d" = true →
      ImageFileOrDirectory.len
        ⟨.dir, "d", sortedStrings (demoEnv.listDir "d"), ""⟩ =
        (demoEnv.listDir "d").length) ∧
    (demoEnv.isDir "d" = false →
      ImageFileOrDirectory.len
        ⟨.dir, "d", sortedStrings (demoEnv.listDir "d"), ""⟩ = 1) :=
  len_spec demoEnv "d" ⟨.dir, "d", sortedStrings (demoEnv.listDir "d"), ""⟩ rfl

/-- C5: a single-file dataset over a file and a directory dataset over its
parent directory agree: the directory dataset, queried at the index of the
file name in the sorted listing, returns the same (image, path) pair as the
single-file dataset at index 0. -/
theorem file_dir_equiv (env : Env) (root name : String)
    (hmem : name ∈ env.listDir root)
    (hroot_ex : env.pathExists root = true) (hroot_dir : env.isDir root = true)
    (hp_ex : env.pathExists (joinPath root name) = true)
    (hp_file : env.isDir (joinPath root name) = false)
    (dFile dDir : ImageFileOrDirectory)
    (hF : ImageFileOrDirectory.init env (joinPath root name) = .ok dFile)
    (hD : ImageFileOrDirectory.init env root = .ok dDir) :
    dDir.getitem env
        (List.indexOf name (sortedStrings (env.listDir root))) =
      dFile.getitem env 0 := by
  unfold ImageFileOrDirectory.init at hF hD
  rw [if_neg (by simp [hp_ex]), if_neg (by simp [hp_file])] at hF
  rw [if_neg (by simp [hroot_ex]), if_pos hroot_dir] at hD
  cases hF
  cases hD
  have hmem2 : name ∈ sortedStrings (env.listDir root) := by
    simpa [sortedStrings] using hmem
  have hidx : (sortedStrings (env.listDir root)).get?
      (List.indexOf name (sortedStrings (env.listDir root))) = some name :=
    List.indexOf_get? hmem2
  rw [List.get?_eq_getElem?] at hidx
  simp [ImageFileOrDirectory.getitem, hidx]

/-- C5 witness: the concrete environment, file `a.png` in directory `d`. -/
theorem file_dir_equiv_witness :
    ImageFileOrDirectory.getitem demoEnv
        ⟨.dir, "d", sortedStrings (demoEnv.listDir "d"), ""⟩
        (List.indexOf "a.png" (sortedStrings (demoEnv.listDir "d"))) =
      ImageFileOrDirectory.getitem demoEnv
        ⟨.file, "", [], joinPath "d" "a.png"⟩ 0 :=
  file_dir_equiv demoEnv "d" "a.png" (by decide) (by decide) (by decide)
    (by decide) (by decide)
    ⟨.file, "", [], joinPath "d" "a.png"⟩
    ⟨.dir, "d", sortedStrings (demoEnv.listDir "d"), ""⟩
    rfl rfl

/-- C10: the directory listing is sorted once at construction: the stored
file list is ascending, the index-th query loads the index-th file name in
ascending lexicographic order, and two constructions over operating-system
enumerations that are permutations of each other store the same file list. -/
theorem dir_sorted_deterministic (env env2 : Env) (root : String)
    (hex : env.pathExists root = true) (hdir : env.isDir root = true)
    (hex2 : env2.pathExists root = true) (hdir2 : env2.isDir root = true)
    (hperm : (env.listDir root).Perm (env2.listDir root))
    (d d2 : ImageFileOrDirectory)
    (h : ImageFileOrDirectory.init env root = .ok d)
    (h2 : ImageFileOrDirectory.init env2 root = .ok d2) :
    List.Sorted (fun a b => a ≤ b) d.files ∧
    d.files = d2.files ∧
    (∀ i name, d.files.get? i = some name →
      d.getitem env i =
        some (ImageFileOrDirectory.load_image env (joinPath root name),
              joinPath root name)) := by
  unfold ImageFileOrDirectory.init at h h2
  rw [if_neg (by simp [hex]), if_pos hdir] at h
  rw [if_neg (by simp [hex2]), if_pos hdir2] at h2
  cases h
  cases h2
  refine ⟨List.sorted_insertionSort _ _, ?_, ?_⟩
  · exact List.eq_of_perm_of_sorted
      (((List.perm_insertionSort _ _).trans hperm).trans
        (List.perm_insertionSort _ _).symm)
      (List.sorted_insertionSort _ _) (List.sorted_insertionSort _ _)
  · intro i name hname
    rw [List.get?_eq_getElem?] at hname
    simp [ImageFileOrDirectory.getitem, hname]

/-- C10 witness: the two concrete environments enumerate `d` in opposite
orders yet produce identical sorted file lists. -/
theorem dir_sorted_deterministic_witness :
    List.Sorted (fun a b => a ≤ b)
      (ImageFileOrDirectory.mk .dir "d"
        (sortedStrings (demoEnv.listDir "d")) "").files ∧
    (ImageFileOrDirectory.mk .dir "d"
      (sortedStrings (demoEnv.listDir "d")) "").files =
      (ImageFileOrDirectory.mk .dir "d"
        (sortedStrings (demoEnv2.listDir "d")) "").files ∧
    (∀ i name,
      (ImageFileOrDirectory.mk .dir "d"
        (sortedStrings (demoEnv.listDir "d")) "").files.get? i = some name →
      ImageFileOrDirectory.getitem demoEnv
        (ImageFileOrDirectory.mk .dir "d"
          (sortedStrings (demoEnv.listDir "d")) "") i =
        some (ImageFileOrDirectory.load_image demoEnv (joinPath "d" name),
              joinPath "d" name)) :=
  dir_sorted_deterministic demoEnv demoEnv2 "d" (by decide) (by decide)
    (by decide) (by decide) (by decide)
    ⟨.dir, "d", sortedStrings (demoEnv.listDir "d"), ""⟩
    ⟨.dir, "d", sortedStrings (demoEnv2.listDir "d"), ""⟩
    rfl rfl

/-- C8: whenever `--checkpoint` is supplied and the earlier argument checks
pass, the validation block of `run_evaluation.py` raises `AttributeError`
on the misspelled attribute `checkoint_dir` (argparse defined
`checkpoint_dir`), so the intended mutual-exclusion check is unreachable
and every `--checkpoint` run fails during validation, before any model is
loaded. -/
theorem checkpoint_validation_attribute_error
    (config ii idir oi od isz pp pm cp cpd vb : PyVal)
    (hcp : cp.isNone = false)
    (h1 : ii.isNone ≠ idir.isNone)
    (h2 : ii.isNone = false → oi.isNone = false)
    (h3 : idir.isNone = false → od.isNone = false)
    (h4 : pp.isNone = pm.isNone) :
    validateArgs (buildArgs config ii idir oi od isz pp pm cp cpd vb) =
      .error (.attributeError "checkoint_dir") := by
  have l1 : (buildArgs config ii idir oi od isz pp pm cp cpd vb).getattr
      "input_image" = .ok ii := rfl
  have l2 : (buildArgs config ii idir oi od isz pp pm cp cpd vb).getattr
      "input_dir" = .ok idir := rfl
  have l3 : (buildArgs config ii idir oi od isz pp pm cp cpd vb).getattr
      "output_image" = .ok oi := rfl
  have l4 : (buildArgs config ii idir oi od isz pp pm cp cpd vb).getattr
      "output_dir" = .ok od := rfl
  have l5 : (buildArgs config ii idir oi od isz pp pm cp cpd vb).getattr
      "pretrain_proto" = .ok pp := rfl
  have l6 : (buildArgs config ii idir oi od isz pp pm cp cpd vb).getattr
      "pretrain_model" = .ok pm := rfl
  have l7 : (buildArgs config ii idir oi od isz pp pm cp cpd vb).getattr
      "checkpoint" = .ok cp := rfl
  have lt : (buildArgs config ii idir oi od isz pp pm cp cpd vb).getattr
      "checkoint_dir" = .error (.attributeError "checkoint_dir") := rfl
  cases hii : ii.isNone <;> cases hidr : idir.isNone
  · exact absurd (hii.trans hidr.symm) h1
  · have hoi2 := h2 hii
    simp [validateArgs, l1, l2, l3, l4, l5, l6, l7, lt, pyAnd, Except.map,
      hii, hidr, hoi2, h4, hcp]
  · have hod2 := h3 hidr
    simp [validateArgs, l1, l2, l3, l4, l5, l6, l7, lt, pyAnd, Except.map,
      hii, hidr, hod2, h4, hcp]
  · exact absurd (hii.trans hidr.symm) h1

/-- C8 witness: a run with `--config`, `--input-image`/`--output-image` and
`--checkpoint` supplied fails with the `AttributeError`. -/
theorem checkpoint_validation_attribute_error_witness :
    validateArgs (buildArgs (.str "cfg.json") (.str "in.png") .none
        (.str "out.png") .none (.str "224") .none .none
        (.str "ckpt.pt") .none .none) =
      .error (.attributeError "checkoint_dir") :=
  checkpoint_validation_attribute_error (.str "cfg.json") (.str "in.png")
    .none (.str "out.png") .none (.str "224") .none .none (.str "ckpt.pt")
    .none .none (by decide) (by decide) (by decide) (by decide) (by decide)

/-! ### Argmax and softmax lemmas -/

theorem argmaxIdx_lt_length (l : List ℚ) (h : l ≠ []) :
    argmaxIdx l < l.length := by
  induction l with
  | nil => cases h rfl
  | cons x xs ih =>
    cases xs with
    | nil => simp [argmaxIdx]
    | cons y ys =>
      simp only [argmaxIdx]
      split
      · simp
      · have := ih (by simp)
        simpa [Nat.succ_lt_succ_iff] using this

theorem argmaxIdx_is_max (l : List ℚ) :
    ∀ i < l.length, l.getD i 0 ≤ l.getD (argmaxIdx l) 0 := by
  induction l with
  | nil => intro i hi; simp at hi
  | cons x xs ih =>
    cases xs with
    | nil =>
      intro i hi
      have hi0 : i = 0 := by
        simp only [List.length_cons, List.length_nil] at hi
        omega
      subst hi0
      simp [argmaxIdx]
    | cons y ys =>
      intro i hi
      by_cases hle : (y :: ys).getD (argmaxIdx (y :: ys)) 0 ≤ x
      · rw [show argmaxIdx (x :: y :: ys) = 0 by
          simp only [argmaxIdx]; rw [if_pos hle]]
        cases i with
        | zero => simp [List.getD]
        | succ j =>
          have hj : j < (y :: ys).length := by
            simpa [Nat.succ_lt_succ_iff] using hi
          have h1 : (x :: y :: ys).getD (j + 1) 0 = (y :: ys).getD j 0 := by
            simp [List.getD]
          have h2 : (x :: y :: ys).getD 0 0 = x := by simp [List.getD]
          rw [h1, h2]
          exact le_trans (ih j hj) hle
      · rw [show argmaxIdx (x :: y :: ys) = argmaxIdx (y :: ys) + 1 by
          simp only [argmaxIdx]; rw [if_neg hle]]
        have hm : (x :: y :: ys).getD (argmaxIdx (y :: ys) + 1) 0 =
            (y :: ys).getD (argmaxIdx (y :: ys)) 0 := by
          simp [List.getD]
        rw [hm]
        cases i with
        | zero =>
          simpa [List.getD] using le_of_not_le hle
        | succ j =>
          have hj : j < (y :: ys).length := by
            simpa [Nat.succ_lt_succ_iff] using hi
          have h1 : (x :: y :: ys).getD (j + 1) 0 = (y :: ys).getD j 0 := by
            simp [List.getD]
          rw [h1]
          exact ih j hj

theorem argmaxIdx_first (l : List ℚ) :
    ∀ i < argmaxIdx l, l.getD i 0 < l.getD (argmaxIdx l) 0 := by
  induction l with
  | nil => intro i hi; simp [argmaxIdx] at hi
  | cons x xs ih =>
    cases xs with
    | nil => intro i hi; simp [argmaxIdx] at hi
    | cons y ys =>
      intro i hi
      by_cases hle : (y :: ys).getD (argmaxIdx (y :: ys)) 0 ≤ x
      · rw [show argmaxIdx (x :: y :: ys) = 0 by
          simp only [argmaxIdx]; rw [if_pos hle]] at hi
        cases hi
      · rw [show argmaxIdx (x :: y :: ys) = argmaxIdx (y :: ys) + 1 by
          simp only [argmaxIdx]; rw [if_neg hle]] at hi ⊢
        have hm : (x :: y :: ys).getD (argmaxIdx (y :: ys) + 1) 0 =
            (y :: ys).getD (argmaxIdx (y :: ys)) 0 := by
          simp [List.getD]
        rw [hm]
        cases i with
        | zero =>
          simpa [List.getD] using lt_of_not_le hle
        | succ j =>
          have hj : j < argmaxIdx (y :: ys) := by omega
          have h1 : (x :: y :: ys).getD (j + 1) 0 = (y :: ys).getD j 0 := by
            simp [List.getD]
          rw [h1]
          exact ih j hj

theorem expSum_pos (scores : List ℚ) (h : scores ≠ []) :
    0 < (scores.map (fun v => Real.exp ((v : ℚ) : ℝ))).sum := by
  refine List.sum_pos _ ?_ (by simpa using h)
  intro x hx
  obtain ⟨v, _, rfl⟩ := List.mem_map.1 hx
  exact Real.exp_pos _

theorem softmaxP_le_iff (scores : List ℚ) (h : scores ≠ []) (i j : ℕ) :
    softmaxP scores i ≤ softmaxP scores j ↔
      scores.getD i 0 ≤ scores.getD j 0 := by
  unfold softmaxP
  rw [div_le_div_iff_of_pos_right (expSum_pos scores h), Real.exp_le_exp,
    Rat.cast_le]

theorem softmaxP_lt_iff (scores : List ℚ) (h : scores ≠ []) (i j : ℕ) :
    softmaxP scores i < softmaxP scores j ↔
      scores.getD i 0 < scores.getD j 0 := by
  unfold softmaxP
  rw [div_lt_div_iff_of_pos_right (expSum_pos scores h), Real.exp_lt_exp,
    Rat.cast_lt]

/-- C7: a negative temperature is rejected explicitly at construction with
a descriptive failure, and a non-negative temperature is never clamped: the
constructed decoder stores exactly the configured temperature. -/
theorem decoder_rejects_negative_temperature (T : ℚ) :
    (T < 0 →
      AnnealedMeanDecodeQ.init T =
        .error "temperature must be non-negative") ∧
    (0 ≤ T → AnnealedMeanDecodeQ.init T = .ok ⟨T⟩) := by
  constructor
  · intro h
    simp [AnnealedMeanDecodeQ.init, h]
  · intro h
    simp [AnnealedMeanDecodeQ.init, not_lt.2 h]

/-- C7 witness: T = -1 is rejected, T = 2 is stored unchanged. -/
theorem decoder_rejects_negative_temperature_witness :
    AnnealedMeanDecodeQ.init (-1) =
      .error "temperature must be non-negative" ∧
    AnnealedMeanDecodeQ.init 2 = .ok ⟨2⟩ :=
  ⟨(decoder_rejects_negative_temperature (-1)).1 (by norm_num),
   (decoder_rejects_negative_temperature 2).2 (by norm_num)⟩

/-- C2: constructing the annealed decoder with T = 0 succeeds (T = 0 is
valid, not an error), and for every raw score vector the T = 0 decode is
one-hot: weight 1 on a single in-range bin and 0 on all others, where that
bin maximizes the softmax probability over all bins and strictly exceeds
every lower-indexed bin, so ties resolve to the lowest index. -/
theorem decode_T0_selects_max_probability (scores : List ℚ)
    (h : scores ≠ []) :
    AnnealedMeanDecodeQ.init 0 = .ok ⟨0⟩ ∧
    decodeT0 scores = oneHot scores.length (argmaxIdx scores) ∧
    argmaxIdx scores < scores.length ∧
    (∀ i < scores.length,
      softmaxP scores i ≤ softmaxP scores (argmaxIdx scores)) ∧
    (∀ i < argmaxIdx scores,
      softmaxP scores i < softmaxP scores (argmaxIdx scores)) := by
  refine ⟨by norm_num [AnnealedMeanDecodeQ.init], rfl,
    argmaxIdx_lt_length scores h, ?_, ?_⟩
  · intro i hi
    exact (softmaxP_le_iff scores h i _).2 (argmaxIdx_is_max scores i hi)
  · intro i hi
    exact (softmaxP_lt_iff scores h i _).2 (argmaxIdx_first scores i hi)

/-- C2 witness: the uniform score vector [0, 0, 0] (the concrete scenario
of the spec: index 0 is selected by the lowest-index tie-break). -/
theorem decode_T0_selects_max_probability_witness :
    AnnealedMeanDecodeQ.init 0 = .ok ⟨0⟩ ∧
    decodeT0 [0, 0, 0] = oneHot (List.length [(0 : ℚ), 0, 0]) (argmaxIdx [0, 0, 0]) ∧
    argmaxIdx [(0 : ℚ), 0, 0] < List.length [(0 : ℚ), 0, 0] ∧
    (∀ i < List.length [(0 : ℚ), 0, 0],
      softmaxP [0, 0, 0] i ≤ softmaxP [0, 0, 0] (argmaxIdx [0, 0, 0])) ∧
    (∀ i < argmaxIdx [(0 : ℚ), 0, 0],
      softmaxP [0, 0, 0] i < softmaxP [0, 0, 0] (argmaxIdx [0, 0, 0])) :=
  decode_T0_selects_max_probability [0, 0, 0] (by decide)

/-! ### Soft encoder lemmas -/

theorem getD_range_map (f : ℕ → ℝ) (n i : ℕ) :
    (((List.range n).map f).getD i 0) = if i < n then f i else 0 := by
  by_cases h : i < n
  · rw [if_pos h, List.getD_eq_getElem _ _ (by simpa using h)]
    simp
  · rw [if_neg h, List.getD_eq_default]
    simpa using le_of_not_lt h

theorem selected_eq_take (tbl : GamutTable) (k : ℕ) (s : ℚ × ℚ) :
    SoftEncodeAB.selected tbl k s =
      ((((List.range tbl.size).map
          (fun i => (sqDist s (tbl.centers.getD i (0, 0)), i))).insertionSort
        rankLe).map Prod.snd).take k := by
  unfold SoftEncodeAB.selected GamutTable.nearestK
  rw [List.map_take]

theorem sorted_snd_perm_range (tbl : GamutTable) (s : ℚ × ℚ) :
    ((((List.range tbl.size).map
        (fun i => (sqDist s (tbl.centers.getD i (0, 0)), i))).insertionSort
      rankLe).map Prod.snd).Perm (List.range tbl.size) := by
  have h1 := (List.perm_insertionSort rankLe
    ((List.range tbl.size).map
      (fun i => (sqDist s (tbl.centers.getD i (0, 0)), i)))).map Prod.snd
  have h2 : (((List.range tbl.size).map
      (fun i => (sqDist s (tbl.centers.getD i (0, 0)), i))).map Prod.snd) =
      List.range tbl.size := by
    rw [List.map_map]
    simp only [Function.comp_def]
    exact List.map_id _
  rw [h2] at h1
  exact h1

theorem selected_nodup (tbl : GamutTable) (k : ℕ) (s : ℚ × ℚ) :
    (SoftEncodeAB.selected tbl k s).Nodup := by
  rw [selected_eq_take]
  exact ((sorted_snd_perm_range tbl s).nodup_iff.2
    (List.nodup_range _)).sublist (List.take_sublist _ _)

theorem selected_mem_lt (tbl : GamutTable) (k : ℕ) (s : ℚ × ℚ) :
    ∀ i ∈ SoftEncodeAB.selected tbl k s, i < tbl.size := by
  intro i hi
  rw [selected_eq_take] at hi
  have h1 := (List.take_sublist _ _).subset hi
  have h2 := (sorted_snd_perm_range tbl s).mem_iff.1 h1
  simpa using h2

theorem selected_length_le (tbl : GamutTable) (k : ℕ) (s : ℚ × ℚ) :
    (SoftEncodeAB.selected tbl k s).length ≤ k := by
  rw [selected_eq_take, List.length_take]
  exact min_le_left _ _

theorem selected_ne_nil (tbl : GamutTable) (k : ℕ) (s : ℚ × ℚ)
    (hN : tbl.centers ≠ []) (hk : 0 < k) :
    SoftEncodeAB.selected tbl k s ≠ [] := by
  have hNpos : 0 < tbl.size := by
    simpa [GamutTable.size] using List.length_pos.2 hN
  rw [selected_eq_take]
  intro hcon
  have hlen : (((((List.range tbl.size).map
      (fun i => (sqDist s (tbl.centers.getD i (0, 0)), i))).insertionSort
    rankLe).map Prod.snd).take k).length = 0 := by
    rw [hcon]
    rfl
  rw [List.length_take] at hlen
  simp only [List.length_map, List.length_insertionSort,
    List.length_range] at hlen
  omega

theorem totalWeight_pos (tbl : GamutTable) (k : ℕ) (sigma : ℚ) (s : ℚ × ℚ)
    (hN : tbl.centers ≠ []) (hk : 0 < k) :
    0 < SoftEncodeAB.totalWeight tbl k sigma s := by
  unfold SoftEncodeAB.totalWeight
  refine List.sum_pos _ ?_ ?_
  · intro x hx
    obtain ⟨i, _, rfl⟩ := List.mem_map.1 hx
    exact Real.exp_pos _
  · simpa using selected_ne_nil tbl k s hN hk

/-- C3: for every chrominance sample, the soft-encoded target is a proper
sparse distribution: length exactly N (the gamut table size), all entries
nonnegative, sum exactly 1 (hence within the ±1e-6 tolerance), and at most
k nonzero entries. -/
theorem encode_is_distribution (tbl : GamutTable) (k : ℕ) (sigma : ℚ)
    (s : ℚ × ℚ) (hN : tbl.centers ≠ []) (hk : 0 < k) :
    (SoftEncodeAB.encode tbl k sigma s).length = tbl.size ∧
    (∀ x ∈ SoftEncodeAB.encode tbl k sigma s, 0 ≤ x) ∧
    (SoftEncodeAB.encode tbl k sigma s).sum = 1 ∧
    ∃ S : Finset ℕ, S.card ≤ k ∧
      ∀ i, (SoftEncodeAB.encode tbl k sigma s).getD i 0 ≠ 0 → i ∈ S := by
  have hWpos := totalWeight_pos tbl k sigma s hN hk
  refine ⟨by simp [SoftEncodeAB.encode], ?_, ?_, ?_⟩
  · intro x hx
    unfold SoftEncodeAB.encode at hx
    obtain ⟨i, _, rfl⟩ := List.mem_map.1 hx
    split
    · exact div_nonneg (le_of_lt (Real.exp_pos _)) (le_of_lt hWpos)
    · exact le_refl 0
  · have hbridge : (SoftEncodeAB.encode tbl k sigma s).sum =
        ∑ i ∈ Finset.range tbl.size,
          (if i ∈ SoftEncodeAB.selected tbl k s then
            SoftEncodeAB.weight tbl sigma s i /
              SoftEncodeAB.totalWeight tbl k sigma s
          else 0) := rfl
    rw [hbridge, ← Finset.sum_filter]
    have hfil : (Finset.range tbl.size).filter
        (fun i => i ∈ SoftEncodeAB.selected tbl k s) =
        (SoftEncodeAB.selected tbl k s).toFinset := by
      ext a
      simp only [Finset.mem_filter, Finset.mem_range, List.mem_toFinset]
      exact ⟨fun h => h.2, fun h => ⟨selected_mem_lt tbl k s a h, h⟩⟩
    rw [hfil, ← Finset.sum_div,
      List.sum_toFinset _ (selected_nodup tbl k s)]
    exact div_self (ne_of_gt hWpos)
  · refine ⟨(SoftEncodeAB.selected tbl k s).toFinset,
      le_trans (List.toFinset_card_le _) (selected_length_le tbl k s), ?_⟩
    intro i hne
    unfold SoftEncodeAB.encode at hne
    rw [getD_range_map] at hne
    by_cases hlt : i < tbl.size
    · rw [if_pos hlt] at hne
      by_cases hmem : i ∈ SoftEncodeAB.selected tbl k s
      · exact List.mem_toFinset.2 hmem
      · rw [if_neg hmem] at hne
        exact absurd rfl hne
    · rw [if_neg hlt] at hne
      exact absurd rfl hne

/-- C3 witness: the concrete scenario of the spec — grid step 10, gamut
restricted to the three bins (0,0), (10,0), (0,10), k = 2, sigma = 5,
sample (3, 1). -/
theorem encode_is_distribution_witness :
    (SoftEncodeAB.encode ⟨[(0, 0), (10, 0), (0, 10)]⟩ 2 5 (3, 1)).length =
      GamutTable.size ⟨[(0, 0), (10, 0), (0, 10)]⟩ ∧
    (∀ x ∈ SoftEncodeAB.encode ⟨[(0, 0), (10, 0), (0, 10)]⟩ 2 5 (3, 1),
      0 ≤ x) ∧
    (SoftEncodeAB.encode ⟨[(0, 0), (10, 0), (0, 10)]⟩ 2 5 (3, 1)).sum = 1 ∧
    ∃ S : Finset ℕ, S.card ≤ 2 ∧
      ∀ i, (SoftEncodeAB.encode
        ⟨[(0, 0), (10, 0), (0, 10)]⟩ 2 5 (3, 1)).getD i 0 ≠ 0 → i ∈ S :=
  encode_is_distribution ⟨[(0, 0), (10, 0), (0, 10)]⟩ 2 5 (3, 1)
    (by decide) (by decide)

end Colorization
